import Mathlib

/-!
Shallow embedding of `naive_bayes.py`, a multinomial Naive Bayes text
classifier, together with proofs settling the specification claims.

Modelling conventions:
* Python dicts (which preserve insertion order) are modelled as association
  lists `List (String × α)`; `dset` is dict assignment (update in place,
  otherwise append) and `dlookup` is `dict.get`.
* `word_counts` is a dict whose values are either a per-class count dict or
  the number stored under the reserved key `"total"` (source line 49), so its
  value type is the sum type `WCVal`.
* Python floats with `math.log` are modelled as real numbers with `Real.log`;
  the argument of every logarithm is an exact rational computed by the code.
* Python exceptions are modelled with `Except PyErr`; the first exception
  raised aborts the whole call, as in the source.
-/

namespace NaiveBayes

/-- Helper for `pySplit`: split a character list at every space, keeping
empty pieces, exactly as Python's `str.split(" ")` does.  The result is
always non-empty (splitting the empty string yields `[""]`). -/
def splitSpace : List Char → List (List Char)
  | [] => [[]]
  | c :: rest =>
      match splitSpace rest with
      | [] => [[]]
      | t :: ts => if c = ' ' then [] :: t :: ts else (c :: t) :: ts

/-- Python's `doc.split(" ")` (source lines 34 and 83): split on every single
space character, keeping the empty tokens produced by adjacent spaces. -/
def pySplit (doc : String) : List String := (splitSpace doc.data).map String.mk

/-- Python's `word.lower()` (source lines 36 and 84): per-character lower
casing (the corpora here are ASCII, where this matches Python). -/
def pyLower (w : String) : String := String.mk (w.data.map Char.toLower)

/-- Python dict assignment `m[k] = v`: replaces the value at an existing key
in place (keeping its position), otherwise appends the new binding. -/
def dset {α : Type} : List (String × α) → String → α → List (String × α)
  | [], k, v => [(k, v)]
  | (k', v') :: rest, k, v =>
      if k' = k then (k, v) :: rest else (k', v') :: dset rest k v

/-- Python `m.get(k)`: the binding of `k`, if any. -/
def dlookup {α : Type} : List (String × α) → String → Option α
  | [], _ => none
  | (k', v') :: rest, k => if k' = k then some v' else dlookup rest k

/-- A value of the `word_counts` dict: a per-class count dict for every class
key, and a plain number under the reserved key `"total"` (source line 49). -/
inductive WCVal where
  | num (n : Nat)
  | dict (m : List (String × Nat))
  deriving DecidableEq

/-- Source lines 43–46: increment the count of `word` in the class's count
dict, initializing to 1 when absent.  Python tests `get(word)` for
truthiness, so a stored 0 (which never occurs) would also be reset to 1. -/
def bumpWord (m : List (String × Nat)) (word : String) : List (String × Nat) :=
  match dlookup m word with
  | some n => if n = 0 then dset m word 1 else dset m word (n + 1)
  | none => dset m word 1

/-- Accumulator state while `parse_training_data` processes one class
(source lines 21–49): the global vocabulary set, this class's own count dict
`word_counts[cls_name]`, this class's running `word_total` (reset to 0 at
line 24 for every class), this class's document count
`class_counts[cls_name]`, and the running grand `class_total`. -/
structure ClsAcc where
  vocab : Finset String
  m : List (String × Nat)
  word_total : Nat
  cls_docs : Nat
  class_total : Nat

/-- Source lines 34–46: one token of one training document.  Lower-case the
token, add it to the vocabulary set, bump this class's word total and the
token's count in this class's dict. -/
def procWord (a : ClsAcc) (word_orig : String) : ClsAcc :=
  let word := pyLower word_orig
  { a with vocab := insert word a.vocab
         , word_total := a.word_total + 1
         , m := bumpWord a.m word }

/-- Source lines 27–46: one training document.  Bump this class's document
count and the grand document total, then fold over the document's
space-separated tokens. -/
def procDoc (a : ClsAcc) (doc : String) : ClsAcc :=
  (pySplit doc).foldl procWord
    { a with cls_docs := a.cls_docs + 1, class_total := a.class_total + 1 }

/-- Global state of `parse_training_data` between classes: vocabulary set,
`word_counts`, `class_counts` (without its final `"total"` key) and the
running grand document total. -/
structure PState where
  vocab : Finset String
  wc : List (String × WCVal)
  cc : List (String × Nat)
  class_total : Nat

/-- Source lines 21–49: one class.  `class_counts[cls_name]` and
`word_counts[cls_name]` start fresh and accumulate over the documents, and
afterwards the reserved key `"total"` of `word_counts` is overwritten with
this class's `word_total` — line 49 sits inside the class loop, so the value
that survives is the word total of the last class iterated. -/
def procClass (st : PState) (cls_name : String) (docs : List String) : PState :=
  let a := docs.foldl procDoc ⟨st.vocab, [], 0, 0, st.class_total⟩
  { vocab := a.vocab
  , wc := dset (dset st.wc cls_name (WCVal.dict a.m)) "total" (WCVal.num a.word_total)
  , cc := dset st.cc cls_name a.cls_docs
  , class_total := a.class_total }

/-- The class loop of `parse_training_data` (source line 21), folded over the
`(cls_name, docs)` items of the data object. -/
def foldClasses (st : PState) (data_obj : List (String × List String)) : PState :=
  data_obj.foldl (fun st p => procClass st p.1 p.2) st

/-- Source lines 3–55: extract the vocabulary size, the word counts by class
(with the reserved `"total"` key) and the document counts by class (with the
grand-total key appended last, line 52). -/
def parse_training_data (data_obj : List (String × List String)) :
    Nat × List (String × WCVal) × List (String × Nat) :=
  let st := foldClasses ⟨∅, [], [], 0⟩ data_obj
  (st.vocab.card, st.wc, dset st.cc "total" st.class_total)

/-- The `word_counts` component of the trained model. -/
def wcOf (data_obj : List (String × List String)) : List (String × WCVal) :=
  (parse_training_data data_obj).2.1

/-- The `class_counts` component of the trained model. -/
def ccOf (data_obj : List (String × List String)) : List (String × Nat) :=
  (parse_training_data data_obj).2.2

/-- The `vocabulary_size` component of the trained model. -/
def vocabOf (data_obj : List (String × List String)) : Nat :=
  (parse_training_data data_obj).1

/-- Number of tokens `doc.split(" ")` yields for one document. -/
def docTokens (doc : String) : Nat := (pySplit doc).length

/-- Token occurrences in a sequence of documents. -/
def tokenCount (docs : List String) : Nat := (docs.map docTokens).sum

/-- Token occurrences across the entire corpus, summed over all classes. -/
def totalTokens (data_obj : List (String × List String)) : Nat :=
  (data_obj.map (fun p => tokenCount p.2)).sum

/-- Sum of the values of a count dict. -/
def sumCounts (m : List (String × Nat)) : Nat := (m.map Prod.snd).sum

/-- The Python exceptions the classifier can raise. -/
inductive PyErr where
  | keyError
  | zeroDivisionError
  | valueError
  | typeError
  | attributeError
  deriving DecidableEq

/-- The argument of the smoothing logarithm at source line 92:
`(word_instance + 1) / (word_counter["total"] + vocab)` as an exact
rational. -/
def likelihoodArg (word_instance total vocab : Nat) : ℚ :=
  (word_instance + 1) / (total + vocab)

/-- The argument of the prior logarithm at source lines 79–80:
`class_count[doc_cls] / class_count["total"]` as an exact rational. -/
def priorArg (num den : Nat) : ℚ := num / den

/-- Source lines 83–93: one token of the document being scored.  Look the
token up in this class's count dict (lines 87–89 turn both a missing key and
a falsy stored 0 into 0), read `word_counter["total"]` (a KeyError when the
key is missing, a TypeError in the addition when it still holds a dict), and
add `log((word_instance + 1) / (total + vocab))` to the accumulated score —
a ZeroDivisionError when that denominator is zero. -/
noncomputable def scoreWord (word_counter : List (String × WCVal)) (vocab : Nat)
    (word_counts : List (String × Nat)) (acc : ℝ) (word_orig : String) :
    Except PyErr ℝ :=
  let word := pyLower word_orig
  let word_instance : Nat :=
    match dlookup word_counts word with
    | some n => if n = 0 then 0 else n
    | none => 0
  match dlookup word_counter "total" with
  | some (WCVal.num t) =>
      if t + vocab = 0 then .error PyErr.zeroDivisionError
      else .ok (acc + Real.log (likelihoodArg word_instance t vocab : ℝ))
  | some (WCVal.dict _) => .error PyErr.typeError
  | none => .error PyErr.keyError

/-- Source lines 73–93: one entry of `word_counter` scored against one test
document.  The reserved key `"total"` is skipped (lines 75–76).  Otherwise
the score starts as the log of the class prior
`class_count[doc_cls] / class_count["total"]` (lines 79–80; a KeyError when
a count is missing, a ZeroDivisionError when the grand document total is 0,
and a ValueError from `math.log` when the ratio is 0), every token of the
document then adds its smoothed log-likelihood, and the result is stored
under the class's key in the `probabilities` dict.  `word_counts.get` on a
non-dict entry value (possible only for a hand-built model) is an
AttributeError; `parse_training_data` stores dicts under every class key. -/
noncomputable def scoreClass (word_counter : List (String × WCVal)) (vocab : Nat)
    (class_count : List (String × Nat)) (doc : String)
    (probabilities : List (String × ℝ)) (entry : String × WCVal) :
    Except PyErr (List (String × ℝ)) :=
  if entry.1 = "total" then .ok probabilities
  else
    match dlookup class_count entry.1 with
    | none => .error PyErr.keyError
    | some num =>
      match dlookup class_count "total" with
      | none => .error PyErr.keyError
      | some den =>
        if den = 0 then .error PyErr.zeroDivisionError
        -- `math.log` raises its domain ValueError exactly when the quotient
        -- `num / den` is not positive; with natural counts and `den ≠ 0`
        -- that happens exactly when `num = 0`.
        else if num = 0 then .error PyErr.valueError
        else
          match entry.2 with
          | WCVal.num _ => .error PyErr.attributeError
          | WCVal.dict m =>
            match (pySplit doc).foldlM (scoreWord word_counter vocab m)
                    (Real.log (priorArg num den : ℝ)) with
            | .error e => .error e
            | .ok score => .ok (dset probabilities entry.1 score)

/-- Source lines 69–96: score one test document against every class of
`word_counter`, producing its per-class `probabilities` dict. -/
noncomputable def scoreDoc (word_counter : List (String × WCVal)) (vocab : Nat)
    (class_count : List (String × Nat)) (doc : String) :
    Except PyErr (List (String × ℝ)) :=
  word_counter.foldlM (scoreClass word_counter vocab class_count doc) []

/-- Source lines 58–98: the per-class log-probability dicts of all the test
documents. -/
noncomputable def calculate_probability (word_counter : List (String × WCVal))
    (vocab : Nat) (class_count : List (String × Nat))
    (test_documents : List String) : Except PyErr (List (List (String × ℝ))) :=
  test_documents.mapM (scoreDoc word_counter vocab class_count)

/-- Source lines 119–122: one step of the arg-max loop, carrying
`(max_prob, max_cls)`.  The `or` short-circuits: with no maximum yet the
entry is taken, otherwise only a strictly greater score replaces the current
maximum, so exact ties keep the earlier class. -/
def chooseStep {α : Type} [LinearOrder α] (acc : Option α × Option String)
    (p : String × α) : Option α × Option String :=
  match acc with
  | (none, _) => (some p.2, some p.1)
  | (some max_prob, max_cls) =>
      if p.2 > max_prob then (some p.2, some p.1) else (some max_prob, max_cls)

/-- Source lines 114–125: fold the arg-max loop over one document's
`probabilities` dict, starting from `(None, None)`. -/
def selectMax {α : Type} [LinearOrder α] (prob_obj : List (String × α)) :
    Option α × Option String :=
  prob_obj.foldl chooseStep (none, none)

/-- Source lines 100–127: score all the test documents, then pick for each
the class with the greatest score.  When a document's score dict is empty the
loop never runs and the appended `max_cls` is still `None`. -/
noncomputable def predict
    (parsed_train_data : Nat × List (String × WCVal) × List (String × Nat))
    (test_data : List String) : Except PyErr (List (Option String)) :=
  match parsed_train_data with
  | (vocab, word_counts, class_counts) =>
    match calculate_probability word_counts vocab class_counts test_data with
    | .error e => .error e
    | .ok probabilities =>
        .ok (probabilities.map (fun prob_obj => (selectMax prob_obj).2))

/-- The module-level toy corpus defined in the `__main__` block of the source
(lines 140–169). -/
def training_data : List (String × List String) :=
  [ ("spam",
     [ "Dear sir, I am Dr Tunde, brother of Nigerian Prince"
     , "Win a million dollars today"
     , "48 hours clearance ends now 48 hours 48 hours Free stuff"
     , "Private invite to exclusive event"
     , "Discount inside 90 percent off everything"
     , "12 days of deals happening now Closeout sale Free giveaways and more"
     , "This is your last chance to register for the biggest giveaway of the year"
     , "Your attention is needed for this very important message"
     , "Tick-tock it's the last day for 30 percent off your purchase"
     , "Final hours Mega mega mega mega mega free shipping on all items"
     , "Checkout these last minute deals on all electronics"
     , "Dear sir, please join me in this one of a lifetime opportunity" ])
  , ("not spam",
     [ "It was great catching up with you yesterday give me a call anytime"
     , "Please remember to bring the drink ingredients to the party"
     , "How did your final exam go yesterday"
     , "Please give me a call back"
     , "Thanks for inquiring about transferring the non-IRA assets from your personal account"
     , "You have a package to pick up at the lobby hub"
     , "You have a package to pick up at the lobby hub"
     , "Thanks for reaching out, a member of our team will get back to you"
     , "You have a package to pick up at the lobby hub"
     , "Payment successfully processed for account ending in"
     , "I am attaching mom's favorite mulled wine recipe that you can use for this weekend"
     , "How are the kids doing" ]) ]

/-- Source lines 129–136.  NOTE the body (line 135): it calls
`parse_training_data(training_data)` — the module-level global name — not its
own parameter `train_data`, which is left unused.  Imported as a library the
global name is unbound and the call raises NameError; run as the demo script
the global holds the toy corpus, which is the situation modelled here. -/
noncomputable def naive_bayes_text (train_data : List (String × List String))
    (test_data : List String) : Except PyErr (List (Option String)) :=
  predict (parse_training_data training_data) test_data

/-! ### Association-list (dict) lemmas -/

theorem dlookup_dset_self {α : Type} (m : List (String × α)) (k : String) (v : α) :
    dlookup (dset m k v) k = some v := by
  induction m with
  | nil => simp [dset, dlookup]
  | cons p rest ih =>
      by_cases h : p.1 = k
      · simp [dset, h, dlookup]
      · simp [dset, h, dlookup, ih]

theorem dlookup_dset_ne {α : Type} (m : List (String × α)) {k k' : String} (v : α)
    (h : k' ≠ k) : dlookup (dset m k v) k' = dlookup m k' := by
  have hk : k ≠ k' := Ne.symm h
  induction m with
  | nil => simp [dset, dlookup, hk]
  | cons p rest ih =>
      by_cases hp : p.1 = k
      · simp [dset, dlookup, hp, hk]
      · by_cases hp' : p.1 = k' <;> simp [dset, dlookup, hp, hp', h, ih]

theorem dset_ne_nil {α : Type} (m : List (String × α)) (k : String) (v : α) :
    dset m k v ≠ [] := by
  cases m with
  | nil => simp [dset]
  | cons p rest =>
      by_cases h : p.1 = k <;> simp [dset, h]

theorem dlookup_eq_none {α : Type} {m : List (String × α)} {k : String}
    (h : k ∉ m.map Prod.fst) : dlookup m k = none := by
  induction m with
  | nil => simp [dlookup]
  | cons p rest ih =>
      simp only [List.map_cons, List.mem_cons] at h
      push_neg at h
      simp [dlookup, Ne.symm h.1, ih h.2]

theorem dset_eq_append {α : Type} {m : List (String × α)} {k : String}
    (h : dlookup m k = none) (v : α) : dset m k v = m ++ [(k, v)] := by
  induction m with
  | nil => simp [dset]
  | cons p rest ih =>
      simp only [dlookup] at h
      by_cases hp : p.1 = k
      · simp [hp] at h
      · simp only [dset, if_neg hp, List.cons_append, List.cons.injEq, true_and]
        exact ih (by simpa [hp] using h)

theorem dlookup_append {α : Type} {m₁ : List (String × α)} {k : String}
    (m₂ : List (String × α)) (h : dlookup m₁ k = none) :
    dlookup (m₁ ++ m₂) k = dlookup m₂ k := by
  induction m₁ with
  | nil => simp
  | cons p rest ih =>
      simp only [dlookup] at h
      by_cases hp : p.1 = k
      · simp [hp] at h
      · simp only [List.cons_append, dlookup, if_neg hp]
        exact ih (by simpa [hp] using h)

/-! ### Trainer fold lemmas -/

theorem bumpWord_cons_ne {p : String × Nat} {w : String} (m : List (String × Nat))
    (h : p.1 ≠ w) : bumpWord (p :: m) w = p :: bumpWord m w := by
  simp only [bumpWord, dlookup, if_neg h]
  cases hl : dlookup m w with
  | none => simp [dset, if_neg h]
  | some n =>
      by_cases hn : n = 0 <;> simp [hn, dset, if_neg h]

theorem bumpWord_sum (m : List (String × Nat)) (w : String) :
    sumCounts (bumpWord m w) = sumCounts m + 1 := by
  induction m with
  | nil => simp [bumpWord, dlookup, dset, sumCounts]
  | cons p rest ih =>
      by_cases hp : p.1 = w
      · simp only [bumpWord, dlookup, if_pos hp]
        by_cases hz : p.2 = 0
        · simp [hz, dset, hp, sumCounts]
          try omega
        · simp [hz, dset, hp, sumCounts]
          try omega
      · rw [bumpWord_cons_ne rest hp]
        simp [sumCounts] at ih ⊢
        omega

theorem foldl_procWord (ws : List String) (a : ClsAcc) :
    (ws.foldl procWord a).cls_docs = a.cls_docs ∧
    (ws.foldl procWord a).class_total = a.class_total ∧
    (ws.foldl procWord a).word_total = a.word_total + ws.length ∧
    sumCounts (ws.foldl procWord a).m = sumCounts a.m + ws.length := by
  induction ws generalizing a with
  | nil => simp
  | cons w ws ih =>
      obtain ⟨h1, h2, h3, h4⟩ := ih (procWord a w)
      refine ⟨?_, ?_, ?_, ?_⟩ <;>
        · simp only [List.foldl_cons, h1, h2, h3, h4]
          simp [procWord, bumpWord_sum]
          try omega

theorem foldl_procDoc (docs : List String) (a : ClsAcc) :
    (docs.foldl procDoc a).cls_docs = a.cls_docs + docs.length ∧
    (docs.foldl procDoc a).class_total = a.class_total + docs.length ∧
    (docs.foldl procDoc a).word_total = a.word_total + tokenCount docs ∧
    sumCounts (docs.foldl procDoc a).m = sumCounts a.m + tokenCount docs := by
  induction docs generalizing a with
  | nil => simp [tokenCount]
  | cons doc docs ih =>
      obtain ⟨h1, h2, h3, h4⟩ := ih (procDoc a doc)
      have hw := foldl_procWord (pySplit doc)
        { a with cls_docs := a.cls_docs + 1, class_total := a.class_total + 1 }
      refine ⟨?_, ?_, ?_, ?_⟩ <;>
        · simp only [List.foldl_cons, h1, h2, h3, h4]
          simp only [procDoc, hw.1, hw.2.1, hw.2.2.1, hw.2.2.2]
          simp [tokenCount, docTokens]
          try omega

theorem procClass_wc_total (st : PState) (cls_name : String) (docs : List String) :
    dlookup (procClass st cls_name docs).wc "total"
      = some (WCVal.num (tokenCount docs)) := by
  have h := (foldl_procDoc docs ⟨st.vocab, [], 0, 0, st.class_total⟩).2.2.1
  simp only [procClass, dlookup_dset_self]
  simpa using congrArg (some ∘ WCVal.num) h

theorem procClass_wc_cls (st : PState) {cls_name : String} (docs : List String)
    (h : cls_name ≠ "total") :
    ∃ m, dlookup (procClass st cls_name docs).wc cls_name = some (WCVal.dict m) ∧
      sumCounts m = tokenCount docs := by
  have hs := (foldl_procDoc docs ⟨st.vocab, [], 0, 0, st.class_total⟩).2.2.2
  refine ⟨(docs.foldl procDoc ⟨st.vocab, [], 0, 0, st.class_total⟩).m, ?_, ?_⟩
  · simp only [procClass, dlookup_dset_ne _ _ h, dlookup_dset_self]
  · simpa [sumCounts] using hs

theorem procClass_cc (st : PState) (cls_name : String) (docs : List String) :
    (procClass st cls_name docs).cc = dset st.cc cls_name docs.length := by
  have h := (foldl_procDoc docs ⟨st.vocab, [], 0, 0, st.class_total⟩).1
  simp only [procClass]
  rw [h]
  simp

theorem procClass_class_total (st : PState) (cls_name : String) (docs : List String) :
    (procClass st cls_name docs).class_total = st.class_total + docs.length := by
  have h := (foldl_procDoc docs ⟨st.vocab, [], 0, 0, st.class_total⟩).2.1
  simp only [procClass]
  rw [h]

theorem foldClasses_append (st : PState) (d : List (String × List String))
    (p : String × List String) :
    foldClasses st (d ++ [p]) = procClass (foldClasses st d) p.1 p.2 := by
  simp [foldClasses, List.foldl_append]

/-- The value stored under the reserved key `"total"` of `word_counts` is the
token count of the last class iterated: every class overwrites it (source
line 49 sits inside the class loop) and the last write survives. -/
theorem foldClasses_wc_total (d : List (String × List String)) (h : d ≠ [])
    (st : PState) :
    dlookup (foldClasses st d).wc "total"
      = some (WCVal.num (tokenCount (d.getLast h).2)) := by
  rcases (List.eq_nil_or_concat d) with rfl | ⟨ds, p, rfl⟩
  · exact absurd rfl h
  · simp only [List.concat_eq_append] at h ⊢
    rw [foldClasses_append, procClass_wc_total]
    simp [List.getLast_append]

/-- The last class's per-token count dict sums to the same figure the
reserved `"total"` key records. -/
theorem foldClasses_wc_last_cls (d : List (String × List String)) (h : d ≠ [])
    (st : PState) (hne : (d.getLast h).1 ≠ "total") :
    ∃ m, dlookup (foldClasses st d).wc (d.getLast h).1 = some (WCVal.dict m) ∧
      sumCounts m = tokenCount (d.getLast h).2 := by
  rcases (List.eq_nil_or_concat d) with rfl | ⟨ds, p, rfl⟩
  · exact absurd rfl h
  · simp only [List.concat_eq_append, List.getLast_append] at hne ⊢
    rw [foldClasses_append]
    exact procClass_wc_cls _ _ hne

/-- Structure of the document-count dict after the class loop: one entry per
class, in input order, holding that class's document count; the grand total
accumulates across all classes. -/
theorem foldClasses_cc (d : List (String × List String)) :
    ∀ st : PState, (d.map Prod.fst).Nodup →
      (∀ k ∈ d.map Prod.fst, dlookup st.cc k = none) →
      (foldClasses st d).cc = st.cc ++ d.map (fun p => (p.1, p.2.length)) ∧
      (foldClasses st d).class_total
        = st.class_total + (d.map (fun p => p.2.length)).sum := by
  induction d with
  | nil => intro st _ _; simp [foldClasses]
  | cons p rest ih =>
      intro st hnd hfresh
      have hcons : foldClasses st (p :: rest) = foldClasses (procClass st p.1 p.2) rest := by
        simp [foldClasses]
      have hlk : dlookup st.cc p.1 = none := hfresh p.1 (by simp)
      have hcc : (procClass st p.1 p.2).cc = st.cc ++ [(p.1, p.2.length)] := by
        rw [procClass_cc, dset_eq_append hlk]
      have hnd' : (rest.map Prod.fst).Nodup := by
        simpa using hnd.of_cons
      have hfresh' : ∀ k ∈ rest.map Prod.fst,
          dlookup (procClass st p.1 p.2).cc k = none := by
        intro k hk
        have hkp : k ≠ p.1 := by
          rintro rfl
          simp only [List.map_cons, List.nodup_cons] at hnd
          exact hnd.1 hk
        rw [hcc, dlookup_append _ (hfresh k (by simp [hk])), dlookup]
        simp [Ne.symm hkp, dlookup]
      obtain ⟨ih1, ih2⟩ := ih (procClass st p.1 p.2) hnd' hfresh'
      constructor
      · rw [hcons, ih1, hcc]
        simp
      · rw [hcons, ih2, procClass_class_total]
        simp [Nat.add_assoc]

/-! ### Classifier lemmas -/

theorem scoreDoc_nil (vocab : Nat) (cc : List (String × Nat)) (doc : String) :
    scoreDoc [] vocab cc doc = .ok [] := rfl

/-- A model whose `word_counter` has no entries at all makes the class loop of
`calculate_probability` a no-op: every document gets an empty score dict and
no error is raised. -/
theorem calculate_probability_nil_classes (vocab : Nat) (cc : List (String × Nat))
    (docs : List String) :
    calculate_probability [] vocab cc docs = .ok (docs.map fun _ => []) := by
  induction docs with
  | nil => rfl
  | cons doc docs ih =>
      simp only [calculate_probability] at ih ⊢
      rw [List.mapM_cons, scoreDoc_nil, ih]
      rfl

theorem foldl_chooseStep_some {α : Type} [LinearOrder α] (l : List (String × α)) :
    ∀ (a : α) (c : String), ∃ a' c',
      l.foldl chooseStep (some a, some c) = (some a', some c') := by
  induction l with
  | nil => exact fun a c => ⟨a, c, rfl⟩
  | cons p rest ih =>
      intro a c
      simp only [List.foldl_cons, chooseStep]
      by_cases h : p.2 > a
      · simpa [h] using ih p.2 p.1
      · simpa [h] using ih a c

/-- A non-empty score dict always yields a selected class. -/
theorem selectMax_ne_none {α : Type} [LinearOrder α] (p : List (String × α))
    (h : p ≠ []) : (selectMax p).2 ≠ none := by
  cases p with
  | nil => exact absurd rfl h
  | cons x rest =>
      obtain ⟨a', c', hf⟩ := foldl_chooseStep_some rest x.2 x.1
      simp [selectMax, List.foldl_cons, chooseStep, hf]

/-- The arg-max loop selects the first entry holding the maximum score: the
selected entry's score bounds every score, and everything strictly before the
selected entry is strictly below it (a later entry replaces the running
maximum only when strictly greater). -/
theorem selectMax_first_max {α : Type} [LinearOrder α] (p : List (String × α))
    (h : p ≠ []) :
    ∃ pre c v suf, p = pre ++ (c, v) :: suf ∧
      (selectMax p).1 = some v ∧ (selectMax p).2 = some c ∧
      (∀ q ∈ p, q.2 ≤ v) ∧ (∀ q ∈ pre, q.2 < v) := by
  induction p using List.reverseRecOn with
  | nil => exact absurd rfl h
  | append_singleton rest x ih =>
      rcases eq_or_ne rest [] with rfl | hne
      · exact ⟨[], x.1, x.2, [], by simp, by simp [selectMax, chooseStep],
          by simp [selectMax, chooseStep], by simp, by simp⟩
      · obtain ⟨pre, c, v, suf, hsplit, h1, h2, h3, h4⟩ := ih hne
        have hpair : selectMax rest = (some v, some c) := by
          rw [Prod.ext_iff]; exact ⟨h1, h2⟩
        have hsel : selectMax (rest ++ [x]) = chooseStep (selectMax rest) x := by
          simp [selectMax, List.foldl_append]
        rw [hpair] at hsel
        by_cases hgt : x.2 > v
        · refine ⟨rest, x.1, x.2, [], by simp, ?_, ?_, ?_, ?_⟩
          · simp [hsel, chooseStep, hgt]
          · simp [hsel, chooseStep, hgt]
          · intro q hq
            rcases List.mem_append.mp hq with hq | hq
            · exact le_of_lt (lt_of_le_of_lt (h3 q hq) hgt)
            · simp only [List.mem_singleton] at hq
              exact le_of_eq (congrArg Prod.snd hq)
          · exact fun q hq => lt_of_le_of_lt (h3 q hq) hgt
        · refine ⟨pre, c, v, suf ++ [x], by rw [hsplit]; simp, ?_, ?_, ?_, h4⟩
          · simp [hsel, chooseStep, hgt]
          · simp [hsel, chooseStep, hgt]
          · intro q hq
            rcases List.mem_append.mp hq with hq | hq
            · exact h3 q hq
            · simp only [List.mem_singleton] at hq
              rw [hq]
              exact not_lt.mp hgt

theorem scoreClass_skip (wc : List (String × WCVal)) (vocab : Nat)
    (cc : List (String × Nat)) (doc : String) (ps : List (String × ℝ))
    (entry : String × WCVal) (h : entry.1 = "total") :
    scoreClass wc vocab cc doc ps entry = .ok ps := by
  simp [scoreClass, h]

/-- A successfully scored real class always stores its score in the
`probabilities` dict: the result is a `dset` of the input. -/
theorem scoreClass_ok_shape {wc : List (String × WCVal)} {vocab : Nat}
    {cc : List (String × Nat)} {doc : String} {ps ps' : List (String × ℝ)}
    {entry : String × WCVal} (h : ¬ entry.1 = "total")
    (hok : scoreClass wc vocab cc doc ps entry = .ok ps') :
    ∃ s, ps' = dset ps entry.1 s := by
  unfold scoreClass at hok
  rw [if_neg h] at hok
  split at hok
  · cases hok
  split at hok
  · cases hok
  split at hok
  · cases hok
  split at hok
  · cases hok
  split at hok
  · cases hok
  split at hok
  · cases hok
  · injection hok with h'
    exact ⟨_, h'.symm⟩

/-- Folding the class loop from a non-empty `probabilities` dict cannot end
in an empty one. -/
theorem foldlM_scoreClass_ne_nil {wc : List (String × WCVal)} {vocab : Nat}
    {cc : List (String × Nat)} {doc : String} :
    ∀ (entries : List (String × WCVal)) (ps ps' : List (String × ℝ)),
      entries.foldlM (scoreClass wc vocab cc doc) ps = .ok ps' →
      ps ≠ [] → ps' ≠ [] := by
  intro entries
  induction entries with
  | nil =>
      intro ps ps' hok hne
      simp only [List.foldlM_nil] at hok
      cases hok
      exact hne
  | cons entry rest ih =>
      intro ps ps' hok hne
      simp only [List.foldlM_cons] at hok
      rcases hstep : scoreClass wc vocab cc doc ps entry with e | ps₁ <;>
        rw [hstep] at hok
      · exact absurd hok (by simp [Bind.bind, Except.bind])
      · simp only [Bind.bind, Except.bind] at hok
        refine ih ps₁ ps' hok ?_
        by_cases ht : entry.1 = "total"
        · have := scoreClass_skip wc vocab cc doc ps entry ht
          rw [hstep] at this
          injection this with h'
          rw [h']
          exact hne
        · obtain ⟨s, hs⟩ := scoreClass_ok_shape ht hstep
          rw [hs]
          exact dset_ne_nil _ _ _

/-- If the class loop runs over a dict containing a real (non-reserved)
class entry and succeeds, the resulting `probabilities` dict is non-empty. -/
theorem foldlM_scoreClass_mem_ne_nil {wc : List (String × WCVal)} {vocab : Nat}
    {cc : List (String × Nat)} {doc : String} :
    ∀ (entries : List (String × WCVal)) (ps ps' : List (String × ℝ))
      (k : String) (val : WCVal), (k, val) ∈ entries → k ≠ "total" →
      entries.foldlM (scoreClass wc vocab cc doc) ps = .ok ps' → ps' ≠ [] := by
  intro entries
  induction entries with
  | nil => intro ps ps' k val hmem; simp at hmem
  | cons entry rest ih =>
      intro ps ps' k val hmem hk hok
      simp only [List.foldlM_cons] at hok
      rcases hstep : scoreClass wc vocab cc doc ps entry with e | ps₁ <;>
        rw [hstep] at hok
      · exact absurd hok (by simp [Bind.bind, Except.bind])
      · simp only [Bind.bind, Except.bind] at hok
        rcases List.mem_cons.mp hmem with heq | hmem'
        · have hne : ¬ entry.1 = "total" := by rw [← heq]; exact hk
          obtain ⟨s, hs⟩ := scoreClass_ok_shape hne hstep
          exact foldlM_scoreClass_ne_nil rest ps₁ ps' hok (hs ▸ dset_ne_nil _ _ _)
        · exact ih ps₁ ps' k val hmem' hk hok

/-- Success of `mapM` over `Except` means every output comes from some input
mapped successfully. -/
theorem mapM_ok_mem {α β : Type} (f : α → Except PyErr β) :
    ∀ (l : List α) (res : List β), l.mapM f = .ok res →
      ∀ b ∈ res, ∃ a ∈ l, f a = .ok b := by
  intro l
  induction l with
  | nil =>
      intro res hok b hb
      simp only [List.mapM_nil] at hok
      cases hok
      simp at hb
  | cons a l ih =>
      intro res hok b hb
      simp only [List.mapM_cons] at hok
      rcases hfa : f a with e | x <;> rw [hfa] at hok
      · exact absurd hok (by simp [Bind.bind, Except.bind])
      · simp only [Bind.bind, Except.bind] at hok
        rcases hrest : l.mapM f with e | xs <;> rw [hrest] at hok
        · exact absurd hok (by simp)
        · have hres : res = x :: xs := by
            simp only [Pure.pure] at hok
            injection hok with h'
            exact h'.symm
          subst hres
          rcases List.mem_cons.mp hb with rfl | hb'
          · exact ⟨a, List.mem_cons_self a l, hfa⟩
          · obtain ⟨a', ha', hfa'⟩ := ih xs hrest b hb'
            exact ⟨a', List.mem_cons_of_mem a ha', hfa'⟩

/-- A model whose `word_counter` has no entries makes `predict` return
`None` for every document, without raising any error. -/
theorem predict_nil_classes (vocab : Nat) (cc : List (String × Nat))
    (ds : List String) :
    predict (vocab, [], cc) ds = .ok (ds.map fun _ => none) := by
  simp only [predict, calculate_probability_nil_classes, List.map_map]
  rfl

/-- Unfolding of the `class_counts` accessor. -/
theorem ccOf_eq (d : List (String × List String)) :
    ccOf d = dset (foldClasses ⟨∅, [], [], 0⟩ d).cc "total"
      (foldClasses ⟨∅, [], [], 0⟩ d).class_total := rfl

/-! ### Claim theorems -/

/-- C1: the convenience entry point does not train on its argument.  Its body
(source line 135) names the module-level global `training_data`, not the
parameter `train_data`, so the result is identical for every training
argument, and the claimed equality with
`predict (parse_training_data train_data) test_data` is refuted. -/
theorem c1_naive_bayes_text_ignores_argument :
    (∀ t₁ t₂ ts, naive_bayes_text t₁ ts = naive_bayes_text t₂ ts) ∧
    ¬ (∀ td ts, naive_bayes_text td ts = predict (parse_training_data td) ts) := by
  refine ⟨fun t₁ t₂ ts => rfl, fun hcl => ?_⟩
  have h₁ := hcl [] ["x"]
  have h₂ := hcl [("a", ["x"])] ["x"]
  have he : predict (parse_training_data []) ["x"]
      = predict (parse_training_data [("a", ["x"])]) ["x"] := h₁.symm.trans h₂
  have hne : (Except.ok [(none : Option String)] : Except PyErr (List (Option String)))
      = Except.ok [some "a"] := he
  simp at hne

/-- C2 counterexample: on the corpus `{a: ["x y"], b: ["z"]}` the value the
scorer reads as `word_counter["total"]` is 1 (class b's token count), not the
all-classes total 3, refuting the claim that it is the global token count. -/
theorem c2_total_not_global_cex :
    ¬ (dlookup (wcOf [("a", ["x y"]), ("b", ["z"])]) "total"
        = some (WCVal.num (totalTokens [("a", ["x y"]), ("b", ["z"])]))) := by
  decide

/-- C2 (amended): the denominator figure `word_counter["total"]` used by
`calculate_probability` is the token count of the last class iterated, not
the all-classes total: the running word total is reset for every class and
the reserved key is overwritten after each class. -/
theorem c2_total_is_last_class (d : List (String × List String)) (h : d ≠ []) :
    dlookup (wcOf d) "total" = some (WCVal.num (tokenCount (d.getLast h).2)) :=
  foldClasses_wc_total d h ⟨∅, [], [], 0⟩

/-- Witness for C2 (amended) at a concrete two-class corpus. -/
theorem c2_total_is_last_class_witness :
    dlookup (wcOf [("a", ["x y"]), ("b", ["z"])]) "total"
      = some (WCVal.num 1) :=
  c2_total_is_last_class [("a", ["x y"]), ("b", ["z"])] (by simp)

/-- C3 counterexample: with zero classes `calculate_probability` raises no
error at all — it returns an empty score dict for the document — and with a
zero smoothing denominator it fails with the raw ZeroDivisionError rather
than an explicitly guarded empty-model condition. -/
theorem c3_no_guard_cex :
    calculate_probability [] 0 [] ["x"] = .ok [[]] ∧
    calculate_probability [("a", WCVal.dict []), ("total", WCVal.num 0)] 0
        [("a", 1), ("total", 1)] ["x"] = .error PyErr.zeroDivisionError :=
  ⟨rfl, rfl⟩

/-- C3 (amended): scoring a model with zero classes succeeds, producing an
empty score dict per document, instead of failing with a not-found error;
and a zero smoothing denominator propagates a raw ZeroDivisionError — the
code has no explicit "cannot score against an empty model" guard. -/
theorem c3_empty_model_behavior :
    (∀ vocab cc docs, calculate_probability [] vocab cc docs
        = .ok (docs.map fun _ => [])) ∧
    calculate_probability [("a", WCVal.dict []), ("total", WCVal.num 0)] 0
        [("a", 1), ("total", 1)] ["x"] = .error PyErr.zeroDivisionError :=
  ⟨calculate_probability_nil_classes, rfl⟩

/-- C4 counterexample: on the corpus `{a: ["x x"], b: ["y"]}` class a's
per-token counts sum to 2 while the single recorded total-words figure is 1
(the last class's count): no per-class total is recorded and the sum does
not match it. -/
theorem c4_per_class_total_cex :
    dlookup (wcOf [("a", ["x x"]), ("b", ["y"])]) "a"
        = some (WCVal.dict [("x", 2)]) ∧
    dlookup (wcOf [("a", ["x x"]), ("b", ["y"])]) "total"
        = some (WCVal.num 1) ∧
    sumCounts [("x", 2)] ≠ 1 := by
  decide

/-- C4 (amended): the model records a single total-words figure, under the
reserved key, and only the last class's per-token counts sum to that
recorded figure. -/
theorem c4_last_class_sum (d : List (String × List String)) (h : d ≠ [])
    (h2 : "total" ∉ d.map Prod.fst) :
    ∃ m, dlookup (wcOf d) (d.getLast h).1 = some (WCVal.dict m) ∧
      dlookup (wcOf d) "total" = some (WCVal.num (sumCounts m)) := by
  have hne : (d.getLast h).1 ≠ "total" := by
    intro he
    exact h2 (he ▸ List.mem_map_of_mem Prod.fst (List.getLast_mem h))
  obtain ⟨m, hm, hsum⟩ := foldClasses_wc_last_cls d h ⟨∅, [], [], 0⟩ hne
  refine ⟨m, hm, ?_⟩
  rw [hsum]
  exact foldClasses_wc_total d h ⟨∅, [], [], 0⟩

/-- Witness for C4 (amended) at a concrete two-class corpus. -/
theorem c4_last_class_sum_witness :
    ∃ m, dlookup (wcOf [("a", ["x x"]), ("b", ["y"])]) "b"
        = some (WCVal.dict m) ∧
      dlookup (wcOf [("a", ["x x"]), ("b", ["y"])]) "total"
        = some (WCVal.num (sumCounts m)) :=
  c4_last_class_sum [("a", ["x x"]), ("b", ["y"])] (by simp) (by decide)

/-- C5 counterexample: a zero-class model yields an empty score dict for the
document, and `predict` returns `None` for it — it does not fail with a
not-found error. -/
theorem c5_none_not_error_cex :
    predict (parse_training_data []) ["x"] = .ok [none] := rfl

/-- C5 (amended): a document whose score dict is empty makes `predict` emit
`None` rather than fail (zero-class model); and when the model holds at
least one real class and prediction succeeds, every emitted label is an
actual class, never `None`. -/
theorem c5_predict_labels :
    (∀ vocab cc ds, predict (vocab, [], cc) ds = .ok (ds.map fun _ => none)) ∧
    (∀ vocab wc cc ds rs k val, (k, val) ∈ wc → k ≠ "total" →
      predict (vocab, wc, cc) ds = .ok rs → ∀ r ∈ rs, r ≠ none) := by
  refine ⟨predict_nil_classes, ?_⟩
  intro vocab wc cc ds rs k val hmem hk hok0 r hr
  have hok : (match calculate_probability wc vocab cc ds with
      | Except.error e => (Except.error e : Except PyErr (List (Option String)))
      | Except.ok probabilities =>
          Except.ok (probabilities.map fun prob_obj => (selectMax prob_obj).2))
      = Except.ok rs := hok0
  rcases hcp : calculate_probability wc vocab cc ds with e | ps <;> rw [hcp] at hok
  · cases hok
  · injection hok with h'
    rw [← h'] at hr
    rcases List.mem_map.mp hr with ⟨p, hp, hpr⟩
    obtain ⟨doc, _, hsd⟩ := mapM_ok_mem _ ds ps hcp p hp
    have hsd' : wc.foldlM (scoreClass wc vocab cc doc) [] = .ok p := hsd
    have hpne : p ≠ [] := foldlM_scoreClass_mem_ne_nil wc [] p k val hmem hk hsd'
    rw [← hpr]
    exact selectMax_ne_none p hpne

/-- Witness for C5 (amended): on a one-class model the label is a real
class. -/
theorem c5_predict_labels_witness :
    ∀ r ∈ [some "a"], r ≠ none :=
  c5_predict_labels.2 1 [("a", WCVal.dict [("x", 1)]), ("total", WCVal.num 1)]
    [("a", 1), ("total", 1)] ["x"] [some "a"] "a" (WCVal.dict [("x", 1)])
    (by simp) (by decide) rfl

/-- C6: over any corpus whose class labels avoid the reserved name `"total"`,
the per-class document counts recorded in `class_counts` sum exactly to the
grand total recorded under `"total"`. -/
theorem c6_class_counts_sum (d : List (String × List String))
    (h1 : "total" ∉ d.map Prod.fst) (h2 : (d.map Prod.fst).Nodup) :
    dlookup (ccOf d) "total"
      = some (sumCounts ((ccOf d).filter fun p => p.1 ≠ "total")) := by
  have hfresh : ∀ k ∈ d.map Prod.fst,
      dlookup (⟨∅, [], [], 0⟩ : PState).cc k = none := fun k _ => rfl
  obtain ⟨hcc, hct⟩ := foldClasses_cc d ⟨∅, [], [], 0⟩ h2 hfresh
  simp only [List.nil_append] at hcc
  have hkeys : (d.map fun p => (p.1, p.2.length)).map Prod.fst = d.map Prod.fst := by
    simp [List.map_map, Function.comp]
  have hLnone : dlookup (d.map fun p => (p.1, p.2.length)) "total" = none := by
    apply dlookup_eq_none
    rw [hkeys]
    exact h1
  rw [ccOf_eq, hcc, hct, dlookup_dset_self, dset_eq_append hLnone,
    List.filter_append]
  have hfilter : (d.map fun p => (p.1, p.2.length)).filter
      (fun p => decide (p.1 ≠ "total")) = d.map fun p => (p.1, p.2.length) := by
    apply List.filter_eq_self.mpr
    intro a ha
    have : a.1 ∈ d.map Prod.fst := by
      rw [← hkeys]
      exact List.mem_map_of_mem Prod.fst ha
    simp only [decide_eq_true_eq]
    intro hbad
    exact h1 (hbad ▸ this)
  rw [hfilter]
  have hsingle : ∀ n : Nat, ([("total", n)].filter
      (fun p => decide (p.1 ≠ "total"))) = [] := by simp
  rw [hsingle, List.append_nil]
  have hsum : sumCounts (d.map fun p => (p.1, p.2.length))
      = (d.map fun p => p.2.length).sum := by
    simp only [sumCounts, List.map_map]
    rfl
  rw [hsum]
  simp

/-- Witness for C6 at a concrete two-class corpus. -/
theorem c6_class_counts_sum_witness :
    dlookup (ccOf [("a", ["x"]), ("b", ["y", "z w"])]) "total"
      = some (sumCounts ((ccOf [("a", ["x"]), ("b", ["y", "z w"])]).filter
          fun p => p.1 ≠ "total")) :=
  c6_class_counts_sum [("a", ["x"]), ("b", ["y", "z w"])] (by decide) (by decide)

/-- C7: the selection loop used by `predict` picks the class with the
strictly greatest score, and exact ties keep the class seen first in
iteration order: the selected entry's score bounds every score and strictly
exceeds every score before it. -/
theorem c7_argmax_first_tie (p : List (String × ℝ)) (h : p ≠ []) :
    ∃ pre c v suf, p = pre ++ (c, v) :: suf ∧
      (selectMax p).1 = some v ∧ (selectMax p).2 = some c ∧
      (∀ q ∈ p, q.2 ≤ v) ∧ (∀ q ∈ pre, q.2 < v) :=
  selectMax_first_max p h

/-- Witness for C7 on a concrete two-entry tied score dict. -/
theorem c7_argmax_first_tie_witness :
    ∃ pre c v suf,
      ([("a", (1 : ℝ)), ("b", 1)] : List (String × ℝ)) = pre ++ (c, v) :: suf ∧
      (selectMax [("a", (1 : ℝ)), ("b", 1)]).1 = some v ∧
      (selectMax [("a", (1 : ℝ)), ("b", 1)]).2 = some c ∧
      (∀ q ∈ [("a", (1 : ℝ)), ("b", 1)], q.2 ≤ v) ∧ (∀ q ∈ pre, q.2 < v) :=
  c7_argmax_first_tie [("a", (1 : ℝ)), ("b", 1)] (by simp)

/-- C8: whenever the smoothing denominator is positive, the argument of the
likelihood logarithm is strictly positive — including for a token absent
from every class, whose count contributes 0 — so `log(0)` is never taken
for a smoothed conditional likelihood. -/
theorem c8_smoothing_positive (word_instance total vocab : Nat)
    (h : 0 < total + vocab) : 0 < likelihoodArg word_instance total vocab := by
  unfold likelihoodArg
  apply div_pos
  · positivity
  · exact_mod_cast h

/-- Witness for C8 at the extreme point: unseen token, empty word totals,
vocabulary of one. -/
theorem c8_smoothing_positive_witness :
    0 < 0 + 1 ∧ (0 : ℚ) < likelihoodArg 0 0 1 :=
  ⟨by decide, c8_smoothing_positive 0 0 1 (by decide)⟩

/-- C9: training on the toy corpus `{spam: ["win money now"],
"not spam": ["call me back"]}` and classifying `"win money"` predicts
`"spam"`: its prior-plus-likelihood log score strictly exceeds that of
`"not spam"`. -/
theorem c9_spam_scenario :
    predict (parse_training_data
        [("spam", ["win money now"]), ("not spam", ["call me back"])])
      ["win money"] = .ok [some "spam"] := by
  have hlt : Real.log ((likelihoodArg 0 3 6 : ℚ) : ℝ)
      < Real.log ((likelihoodArg 1 3 6 : ℚ) : ℝ) := by
    have h0 : ((likelihoodArg 0 3 6 : ℚ) : ℝ) = 1 / 9 := by
      norm_num [likelihoodArg]
    have h1 : ((likelihoodArg 1 3 6 : ℚ) : ℝ) = 2 / 9 := by
      norm_num [likelihoodArg]
    rw [h0, h1]
    exact Real.log_lt_log (by norm_num) (by norm_num)
  have hST : Real.log ((priorArg 1 2 : ℚ) : ℝ)
        + Real.log ((likelihoodArg 0 3 6 : ℚ) : ℝ)
        + Real.log ((likelihoodArg 0 3 6 : ℚ) : ℝ)
      < Real.log ((priorArg 1 2 : ℚ) : ℝ)
        + Real.log ((likelihoodArg 1 3 6 : ℚ) : ℝ)
        + Real.log ((likelihoodArg 1 3 6 : ℚ) : ℝ) :=
    add_lt_add (add_lt_add_left hlt _) hlt
  have hcalc : calculate_probability
      (wcOf [("spam", ["win money now"]), ("not spam", ["call me back"])]) 6
      (ccOf [("spam", ["win money now"]), ("not spam", ["call me back"])])
      ["win money"]
      = .ok [[("spam", Real.log ((priorArg 1 2 : ℚ) : ℝ)
                + Real.log ((likelihoodArg 1 3 6 : ℚ) : ℝ)
                + Real.log ((likelihoodArg 1 3 6 : ℚ) : ℝ)),
              ("not spam", Real.log ((priorArg 1 2 : ℚ) : ℝ)
                + Real.log ((likelihoodArg 0 3 6 : ℚ) : ℝ)
                + Real.log ((likelihoodArg 0 3 6 : ℚ) : ℝ))]] := rfl
  show (match calculate_probability
      (wcOf [("spam", ["win money now"]), ("not spam", ["call me back"])]) 6
      (ccOf [("spam", ["win money now"]), ("not spam", ["call me back"])])
      ["win money"] with
    | .error e => (.error e : Except PyErr (List (Option String)))
    | .ok probabilities =>
        .ok (probabilities.map (fun prob_obj => (selectMax prob_obj).2)))
    = .ok [some "spam"]
  rw [hcalc]
  simp only [List.map_cons, List.map_nil, selectMax, List.foldl_cons,
    List.foldl_nil, chooseStep]
  rw [if_neg (not_lt.mpr hST.le)]

/-- C10: the smoothed-likelihood denominator is one shared value for every
class: the recorded `"total"` equals the token count of the last class
iterated only, and on a concrete two-class model with unequal per-class
token counts (class a: 2, class b: 1) both classes are scored with the same
last-class total 1 in the denominator. -/
theorem c10_shared_last_class_denominator :
    (∀ (d : List (String × List String)) (h : d ≠ []),
      dlookup (wcOf d) "total"
        = some (WCVal.num (tokenCount (d.getLast h).2))) ∧
    calculate_probability (wcOf [("a", ["x x"]), ("b", ["y"])]) 2
        (ccOf [("a", ["x x"]), ("b", ["y"])]) ["x"]
      = .ok [[("a", Real.log ((priorArg 1 2 : ℚ) : ℝ)
                + Real.log ((likelihoodArg 2 1 2 : ℚ) : ℝ)),
              ("b", Real.log ((priorArg 1 2 : ℚ) : ℝ)
                + Real.log ((likelihoodArg 0 1 2 : ℚ) : ℝ))]] :=
  ⟨fun d h => foldClasses_wc_total d h ⟨∅, [], [], 0⟩, rfl⟩

/-- Witness for C10's total-is-last-class component at a concrete corpus. -/
theorem c10_shared_last_class_denominator_witness :
    dlookup (wcOf [("a", ["x x"]), ("b", ["y"])]) "total"
      = some (WCVal.num 1) :=
  c10_shared_last_class_denominator.1 [("a", ["x x"]), ("b", ["y"])] (by simp)

end NaiveBayes
